import Mathlib

/-! The reshape node of the MX expression graph (casadi/core/mx/reshape.cpp).

A shallow embedding of `casadi::Reshape` and of the properties its specification states.

Only `reshape.cpp` is available.  The classes and free functions it calls (`Sparsity`, `MX`,
`reshape`, `MXNode::copyFwd`, `CodeGenerator`, ...) are declared elsewhere; they are either
taken as parameters of the embedded methods or, where a concrete reading is needed, modelled
from the specification and marked as such.
-/

namespace casadi

/-! ## Data model -/

/-- Modelled from the spec: class `Sparsity` (the ShapeDescriptor) is declared outside this
file.  The spec calls it an "opaque structural description of which tensor positions carry
meaningful values": here the two dimensions and the positions (row, column) that carry a
value, listed in canonical linear order. -/
structure Sparsity where
  /-- Number of rows. -/
  size1 : Nat
  /-- Number of columns. -/
  size2 : Nat
  /-- Positions that carry a value. -/
  pos : List (Nat × Nat)
deriving DecidableEq, Repr

/-- Modelled from the spec: `elementCount()` of the ShapeDescriptor (`Sparsity::nnz`), the
number of positions that carry a value. -/
def Sparsity.nnz (s : Sparsity) : Nat := s.pos.length

/-- Modelled from the spec: the dimension pair of a descriptor (`Sparsity::shape`). -/
def Sparsity.shape (s : Sparsity) : Nat × Nat := (s.size1, s.size2)

/-- Modelled from the spec: total number of positions, rows times columns
(`Sparsity::numel`). -/
def Sparsity.numel (s : Sparsity) : Nat := s.size1 * s.size2

/-- Modelled from the spec: `isVectorShaped(bool treatScalarAsVector)` of the ShapeDescriptor
(`Sparsity::isVector`, declared outside this file), "is it a row/column vector"; a 1x1
descriptor counts only when the flag is set. -/
def Sparsity.isVector (s : Sparsity) (scalar : Bool) : Bool :=
  (s.size1 == 1 || s.size2 == 1) && (scalar || !(s.size1 == 1 && s.size2 == 1))

/-- The collaborators of `reshape.cpp` on the expression type `MX`, all declared outside the
file and therefore taken as parameters: the embedded methods are defined, and the theorems
proved, for every implementation of them. -/
structure MXApi (MX : Type) where
  /-- The call `x.sparsity()`. -/
  sparsity : MX → Sparsity
  /-- The call `isVector(flag)` with an explicit flag. -/
  isVector : Sparsity → Bool → Bool
  /-- The call `isVector()` without an argument. -/
  isVectorDefault : Sparsity → Bool
  /-- The free function `reshape(const MX&, const Sparsity&)`. -/
  reshape : MX → Sparsity → MX
  /-- The free function `reshape(const MX&, std::pair<int,int>)`. -/
  reshapeShape : MX → Nat × Nat → MX
  /-- The sum formed by `MX::operator+=`: `a += b` stores `plus a b` in `a`. -/
  plus : MX → MX → MX

/-- The call `x.nnz()` on an expression: the element count of its descriptor. -/
def MXApi.nnz {MX : Type} (E : MXApi MX) (x : MX) : Nat := (E.sparsity x).nnz

/-- The call `x.shape()` on an expression: the dimensions of its descriptor. -/
def MXApi.shape {MX : Type} (E : MXApi MX) (x : MX) : Nat × Nat := (E.sparsity x).shape

/-- A `Reshape` node: the state `MXNode` keeps for it, namely the dependency vector, which
`setDependencies(x)` sets to the single entry `x`, and the output descriptor set by
`setSparsity(sp)`. -/
structure Reshape (MX : Type) where
  /-- The single dependency, `dep()` = `dep(0)`. -/
  dep : MX
  /-- The output descriptor, `sparsity()`. -/
  sparsity : Sparsity

/-- The call `nnz()` on the node: the element count of its output descriptor. -/
def Reshape.nnz {MX : Type} (self : Reshape MX) : Nat := self.sparsity.nnz

/-- The call `shape()` on the node: the dimensions of its output descriptor. -/
def Reshape.shape {MX : Type} (self : Reshape MX) : Nat × Nat := self.sparsity.shape

/-- The constructor `Reshape::Reshape(const MX& x, Sparsity sp)`.  `casadi_assert` is a macro
from outside the file; by the spec a violated assertion "fails fast", so no node results. -/
def Reshape.construct {MX : Type} (E : MXApi MX) (x : MX) (sp : Sparsity) :
    Except String (Reshape MX) :=
  if E.nnz x = sp.nnz then
    .ok { dep := x, sparsity := sp }
  else
    .error "Assertion x.nnz()==sp.nnz() failed"

/-- Storage addressed by pointers: the value held at each address. -/
abbrev Mem (T : Type) := Nat → T

/-- The store `*p = v`. -/
def Mem.write {T : Type} (m : Mem T) (p : Nat) (v : T) : Mem T :=
  fun q => if q = p then v else m q

/-- The loop of `std::copy`: `n` times `*d_first++ = *first++`. -/
def copyN {T : Type} (m : Mem T) (first : Nat) : Nat → Nat → Mem T
  | 0, _ => m
  | n + 1, d_first => copyN (m.write d_first (m first)) (first + 1) n (d_first + 1)

/-- The call `std::copy(first, last, d_first)` of the standard library: the elements of
`[first, last)` are assigned, front to back, to the range starting at `d_first`. -/
def copy {T : Type} (m : Mem T) (first last d_first : Nat) : Mem T :=
  copyN m first (last - first) d_first

/-- The memory a traversal works on: the buffers of element type `T` that the pointers in
`arg`, `res` and `rtmp` point into, and the integer workspace `itmp` points into. -/
structure Work (T : Type) where
  /-- Element storage. -/
  w : Mem T
  /-- Integer workspace. -/
  iw : Mem Int

/-- `Reshape::evalGen<T>(const T* const* arg, T* const* res, int* itmp, T* rtmp)`.
`arg` and `res` are arrays of pointers; reading `arg[0]` or `res[0]` from an empty array has
no defined result. -/
def Reshape.evalGen {MX T : Type} (self : Reshape MX) (arg res : List Nat)
    (_itmp _rtmp : Nat) (st : Work T) : Option (Work T) := do
  let a ← arg[0]?
  let r ← res[0]?
  if a ≠ r then
    some { st with w := copy st.w a (a + self.nnz) r }
  else
    some st

/-- `Reshape::evalD`: `evalGen<double>`; `double` is only ever copied, so it is a type
parameter. -/
def Reshape.evalD {MX double : Type} (self : Reshape MX) (input output : List Nat)
    (itmp rtmp : Nat) (st : Work double) : Option (Work double) :=
  self.evalGen input output itmp rtmp st

/-- `Reshape::evalSX`: `evalGen<SXElement>`. -/
def Reshape.evalSX {MX SXElement : Type} (self : Reshape MX) (input output : List Nat)
    (itmp rtmp : Nat) (st : Work SXElement) : Option (Work SXElement) :=
  self.evalGen input output itmp rtmp st

/-! ## Dependency propagation

`bvec_t` is an unsigned machine word holding one bit per direction; it is embedded as a `Nat`
and only combined with bitwise OR, which never leaves the word size. -/

/-- Modelled from the spec: `MXNode::copyFwd(arg, res, len)` is declared outside this file.
Forward propagation is a "bitwise copy ... of the per-element dependency bit-vector, same
linear order as valueEval", and valueEval copies "if source and destination buffers are
distinct storage" and does nothing "if they are the same storage". -/
def copyFwd (m : Mem Nat) (arg res len : Nat) : Mem Nat :=
  if arg ≠ res then copy m arg (arg + len) res else m

/-- Modelled from the spec: `MXNode::copyAdj(arg, res, len)` is declared outside this file.
Reverse propagation is a "bitwise OR-accumulate" of the output bits into the input bits,
"combined by logical OR with whatever is already present", in the same linear order. -/
def copyAdj (m : Mem Nat) : Nat → Nat → Nat → Mem Nat
  | _, _, 0 => m
  | arg, res, len + 1 => copyAdj (m.write arg (m arg ||| m res)) (arg + 1) (res + 1) len

/-- `Reshape::spFwd(cp_bvec_t* arg, p_bvec_t* res, int* itmp, bvec_t* rtmp)`. -/
def Reshape.spFwd {MX : Type} (self : Reshape MX) (arg res : List Nat)
    (_itmp _rtmp : Nat) (st : Work Nat) : Option (Work Nat) := do
  let a ← arg[0]?
  let r ← res[0]?
  some { st with w := copyFwd st.w a r self.nnz }

/-- `Reshape::spAdj(p_bvec_t* arg, p_bvec_t* res, int* itmp, bvec_t* rtmp)`. -/
def Reshape.spAdj {MX : Type} (self : Reshape MX) (arg res : List Nat)
    (_itmp _rtmp : Nat) (st : Work Nat) : Option (Work Nat) := do
  let a ← arg[0]?
  let r ← res[0]?
  some { st with w := copyAdj st.w a r self.nnz }

/-! ## Printing -/

/-- `Reshape::printPart(std::ostream& stream, int part)`; the stream is the text written so
far and the result is the text after the call. -/
def Reshape.printPart {MX : Type} (E : MXApi MX) (self : Reshape MX) (stream : String)
    (part : Int) : String :=
  if E.isVector (E.sparsity self.dep) true && E.isVector self.sparsity true then
    if part ≠ 0 then stream ++ "'" else stream
  else
    if part = 0 then
      if E.isVectorDefault self.sparsity then stream ++ "vec(" else stream ++ "reshape("
    else
      stream ++ ")"

/-! ## Symbolic evaluation -/

/-- The loop of `Reshape::evalAdj`: `k` iterations remain, starting at direction `d`.
An index outside a vector has no defined result. -/
def Reshape.evalAdjLoop {MX : Type} (E : MXApi MX) (self : Reshape MX)
    (aseed : List (List MX)) : Nat → Nat → List (List MX) → Option (List (List MX))
  | 0, _, asens => some asens
  | k + 1, d, asens => do
    let seeds ← aseed[d]?
    let seed ← seeds[0]?
    let sens ← asens[d]?
    let old ← sens[0]?
    let sum := E.plus old (E.reshapeShape seed (E.shape self.dep))
    Reshape.evalAdjLoop E self aseed k (d + 1) (asens.set d (sens.set 0 sum))

/-- `Reshape::evalAdj(aseed, asens)`:
`for (d = 0; d < aseed.size(); ++d) asens[d][0] += reshape(aseed[d][0], dep().shape())`. -/
def Reshape.evalAdj {MX : Type} (E : MXApi MX) (self : Reshape MX)
    (aseed asens : List (List MX)) : Option (List (List MX)) :=
  Reshape.evalAdjLoop E self aseed aseed.length 0 asens

/-- `Reshape::evalMX(arg, res)`: `res[0] = reshape(arg[0], shape())`.  Reading `arg[0]` or
assigning `res[0]` in an empty vector has no defined result. -/
def Reshape.evalMX {MX : Type} (E : MXApi MX) (self : Reshape MX) (arg res : List MX) :
    Option (List MX) := do
  let x ← arg[0]?
  let _old ← res[0]?
  some (res.set 0 (E.reshapeShape x self.shape))

/-- The loop of `Reshape::evalFwd`: `k` iterations remain, starting at direction `d`.
An index outside a vector has no defined result. -/
def Reshape.evalFwdLoop {MX : Type} (E : MXApi MX) (self : Reshape MX)
    (fseed : List (List MX)) : Nat → Nat → List (List MX) → Option (List (List MX))
  | 0, _, fsens => some fsens
  | k + 1, d, fsens => do
    let seeds ← fseed[d]?
    let seed ← seeds[0]?
    let sens ← fsens[d]?
    let _old ← sens[0]?
    Reshape.evalFwdLoop E self fseed k (d + 1)
      (fsens.set d (sens.set 0 (E.reshapeShape seed self.shape)))

/-- `Reshape::evalFwd(fseed, fsens)`:
`for (d = 0; d < fsens.size(); ++d) fsens[d][0] = reshape(fseed[d][0], shape())`. -/
def Reshape.evalFwd {MX : Type} (E : MXApi MX) (self : Reshape MX)
    (fseed fsens : List (List MX)) : Option (List (List MX)) :=
  Reshape.evalFwdLoop E self fseed fsens.length 0 fsens

/-! ## Structural queries and the primitive walk -/

/-- A cursor into a vector of primitives (`std::vector<MX>::iterator`): the storage it points
into and its position. -/
structure Cursor (MX : Type) where
  /-- The vector the iterator points into. -/
  buf : Mem MX
  /-- The position of the iterator. -/
  pos : Nat

/-- The virtual member functions of the input node that `Reshape` calls through `dep()->`.
They are declared outside this file and therefore taken as parameters; the first argument is
the node they are called on.  `σ` is the state `hasDuplicates` and `resetInput`, which are not
`const`, may change.  A `const_iterator` cannot be written through, so `joinPrimitives`
returns only the value and the new position. -/
structure NodeApi (MX σ : Type) where
  /-- The call `dep()->isValidInput()`. -/
  isValidInput : MX → Bool
  /-- The call `dep()->numPrimitives()`, a count. -/
  numPrimitives : MX → Nat
  /-- The call `dep()->getPrimitives(it)`. -/
  getPrimitives : MX → Cursor MX → Cursor MX
  /-- The call `dep()->splitPrimitives(x, it)`. -/
  splitPrimitives : MX → MX → Cursor MX → Cursor MX
  /-- The call `dep()->joinPrimitives(it)`. -/
  joinPrimitives : MX → Cursor MX → MX × Nat
  /-- The call `dep()->hasDuplicates()`. -/
  hasDuplicates : MX → σ → Bool × σ
  /-- The call `dep()->resetInput()`. -/
  resetInput : MX → σ → σ

/-- `Reshape::isValidInput()`. -/
def Reshape.isValidInput {MX σ : Type} (N : NodeApi MX σ) (self : Reshape MX) : Bool :=
  if !N.isValidInput self.dep then false else true

/-- `Reshape::numPrimitives()`. -/
def Reshape.numPrimitives {MX σ : Type} (N : NodeApi MX σ) (self : Reshape MX) : Nat :=
  N.numPrimitives self.dep

/-- `Reshape::getPrimitives(it)`. -/
def Reshape.getPrimitives {MX σ : Type} (N : NodeApi MX σ) (self : Reshape MX)
    (it : Cursor MX) : Cursor MX :=
  N.getPrimitives self.dep it

/-- `Reshape::splitPrimitives(x, it)`. -/
def Reshape.splitPrimitives {MX σ : Type} (E : MXApi MX) (N : NodeApi MX σ)
    (self : Reshape MX) (x : MX) (it : Cursor MX) : Cursor MX :=
  N.splitPrimitives self.dep (E.reshapeShape x (E.shape self.dep)) it

/-- `Reshape::joinPrimitives(it)`: the value returned and the new position of `it`. -/
def Reshape.joinPrimitives {MX σ : Type} (E : MXApi MX) (N : NodeApi MX σ)
    (self : Reshape MX) (it : Cursor MX) : MX × Nat :=
  let joined := N.joinPrimitives self.dep it
  (E.reshapeShape joined.1 self.shape, joined.2)

/-- `Reshape::hasDuplicates()`. -/
def Reshape.hasDuplicates {MX σ : Type} (N : NodeApi MX σ) (self : Reshape MX) (s : σ) :
    Bool × σ :=
  N.hasDuplicates self.dep s

/-- `Reshape::resetInput()`. -/
def Reshape.resetInput {MX σ : Type} (N : NodeApi MX σ) (self : Reshape MX) (s : σ) : σ :=
  N.resetInput self.dep s

/-! ## Code generation -/

/-- Modelled from the spec: the CodeEmitter (`CodeGenerator`, declared outside this file).
`σ` is everything an emitter call may change, output stream included; `work` names a work
slot and `copyVector` is the spec's
`emitCopy(stream, sourceSlot, count, destSlot, indexVarName, reverseOrder)`. -/
structure CodeGenerator (σ : Type) where
  /-- The call `gen.work(i)`. -/
  work : Int → String
  /-- The call `gen.copyVector(stream, src, n, dst, it, flag)`. -/
  copyVector : σ → String → Nat → String → String → Bool → σ

/-- `Reshape::generate(stream, arg, res, gen)`; `arg` and `res` hold slot indices. -/
def Reshape.generate {MX σ : Type} (self : Reshape MX) (gen : CodeGenerator σ)
    (arg res : List Int) (s : σ) : Option σ := do
  let a ← arg[0]?
  let r ← res[0]?
  if a = r then
    some s
  else
    some (gen.copyVector s (gen.work a) self.nnz (gen.work r) "i" false)

/-! ## Algebraic simplification -/

/-- `Reshape::getReshape(const Sparsity& sp)`. -/
def Reshape.getReshape {MX : Type} (E : MXApi MX) (self : Reshape MX) (sp : Sparsity) : MX :=
  E.reshape self.dep sp

/-- `Reshape::getTranspose()`.  `MXNode_getTranspose` is the base-class method
`MXNode::getTranspose`, declared outside this file, applied to this node. -/
def Reshape.getTranspose {MX : Type} (E : MXApi MX) (MXNode_getTranspose : Reshape MX → MX)
    (self : Reshape MX) : MX :=
  if E.isVector (E.sparsity self.dep) true && E.isVector self.sparsity true then
    self.dep
  else
    MXNode_getTranspose self

/-! ## A concrete set of collaborators

The theorems below hold for every implementation of the collaborators.  To run the embedded
methods on concrete inputs, the following implementation keeps every collaborator call as an
uninterpreted piece of syntax, so that a result shows exactly which calls were made. -/

/-- Modelled from the spec: a descriptor in which every position of an `nrow` by `ncol` grid
carries a value (`Sparsity::dense`); the canonical linear order is taken column by column. -/
def Sparsity.dense (nrow ncol : Nat) : Sparsity :=
  { size1 := nrow, size2 := ncol
    pos := (List.range (nrow * ncol)).map fun k => (k % nrow, k / nrow) }

/-- Modelled from the spec: the descriptor "produces a reshaped copy of itself"
(`Sparsity::reshape`): same positions in linear order, laid out on new dimensions. -/
def Sparsity.reshape (s : Sparsity) (nrow ncol : Nat) : Sparsity :=
  { size1 := nrow, size2 := ncol
    pos := s.pos.map fun ij => ((ij.1 + ij.2 * s.size1) % nrow, (ij.1 + ij.2 * s.size1) / nrow) }

/-- Modelled from the spec: the descriptor of the transpose (`Sparsity::transpose`): rows and
columns exchanged. -/
def Sparsity.transpose (s : Sparsity) : Sparsity :=
  { size1 := s.size2, size2 := s.size1, pos := s.pos.map fun ij => (ij.2, ij.1) }

/-- Expressions in which the collaborator calls are recorded as they were made. -/
inductive Term where
  /-- A symbolic primitive with its descriptor. -/
  | sym (name : String) (sp : Sparsity)
  /-- A recorded call `reshape(x, sp)`. -/
  | reshape (x : Term) (sp : Sparsity)
  /-- A recorded sum `a + b`. -/
  | plus (a b : Term)
  /-- A recorded generic transpose of a node with operand `x` and descriptor `sp`. -/
  | transpose (x : Term) (sp : Sparsity)
deriving DecidableEq, Repr

/-- The descriptor of a recorded expression. -/
def Term.sparsity : Term → Sparsity
  | .sym _ sp => sp
  | .reshape _ sp => sp
  | .plus a _ => a.sparsity
  | .transpose _ sp => sp.transpose

/-- The recording implementation of the collaborators on `Term`. -/
def termApi : MXApi Term :=
  { sparsity := Term.sparsity
    isVector := Sparsity.isVector
    isVectorDefault := fun s => s.isVector false
    reshape := Term.reshape
    reshapeShape := fun x rc => Term.reshape x (x.sparsity.reshape rc.1 rc.2)
    plus := Term.plus }

/-- The recording implementation of `MXNode::getTranspose`. -/
def termBaseTranspose (node : Reshape Term) : Term :=
  Term.transpose node.dep node.sparsity

/-- One recorded `copyVector` request. -/
structure CopyVectorCall where
  /-- Source slot. -/
  src : String
  /-- Number of elements. -/
  n : Nat
  /-- Destination slot. -/
  dst : String
  /-- Name of the index variable. -/
  it : String
  /-- The trailing boolean argument. -/
  flag : Bool
deriving DecidableEq, Repr

/-- A code generator that records every request: the state is the text written to the stream
and the list of requests received. -/
def recordingGenerator (work : Int → String) : CodeGenerator (String × List CopyVectorCall) :=
  { work := work
    copyVector := fun s src n dst it flag =>
      (s.1 ++ "copy " ++ src ++ " " ++ dst ++ ";", s.2 ++ [⟨src, n, dst, it, flag⟩]) }

/-- An input node that is a single primitive: it is a valid input, splitting stores the value
at the cursor, joining reads it back, and `hasDuplicates` reports and sets a visited mark. -/
def leafNode (MX : Type) : NodeApi MX Bool :=
  { isValidInput := fun _ => true
    numPrimitives := fun _ => 1
    getPrimitives := fun x it => { buf := it.buf.write it.pos x, pos := it.pos + 1 }
    splitPrimitives := fun _ v it => { buf := it.buf.write it.pos v, pos := it.pos + 1 }
    joinPrimitives := fun _ it => (it.buf it.pos, it.pos + 1)
    hasDuplicates := fun _ visited => (visited, true)
    resetInput := fun _ _ => false }

/-! ## Example inputs -/

/-- A node reshaping a dense 2x3 symbol into a dense 3x2 value. -/
def exampleNode : Reshape Term :=
  { dep := Term.sym "x" (Sparsity.dense 2 3), sparsity := Sparsity.dense 3 2 }

/-- Integer storage holding `100 + p` at every address `p`. -/
def exampleWork : Work Int :=
  { w := fun p => 100 + (p : Int), iw := fun _ => 0 }

/-- Dependency words for `exampleNode`: input at addresses 0..5 with only index 4 marked,
output at addresses 6..11 holding stale marks. -/
def fwdWork : Work Nat :=
  { w := fun p => if p = 4 then 1 else if 6 ≤ p then 7 else 0, iw := fun _ => 0 }

/-- Dependency words for `exampleNode`: input at addresses 0..5, every element already
holding bit 1, output at addresses 6..11 with only index 4 marked, by bit 0. -/
def adjWork : Work Nat :=
  { w := fun p => if p < 6 then 2 else if p = 10 then 1 else 0, iw := fun _ => 0 }

/-- An adjoint seed of the shape of `exampleNode`'s output. -/
def seed1 : Term := Term.sym "s1" (Sparsity.dense 3 2)

/-- A second adjoint seed of the shape of `exampleNode`'s output. -/
def seed2 : Term := Term.sym "s2" (Sparsity.dense 3 2)

/-- A sensitivity already deposited for `exampleNode`'s input. -/
def sens0 : Term := Term.sym "a0" (Sparsity.dense 2 3)

/-- Slot names `w0`, `w1`, ... for the recording generator. -/
def exampleSlot (i : Int) : String := "w" ++ toString i

/-- A node reshaping a dense 3x1 column symbol into a dense 1x3 row. -/
def vectorNode : Reshape Term :=
  { dep := Term.sym "v" (Sparsity.dense 3 1), sparsity := Sparsity.dense 1 3 }

/-- A forward seed of the shape of `exampleNode`'s input. -/
def tangent1 : Term := Term.sym "t1" (Sparsity.dense 2 3)

/-- A second forward seed of the shape of `exampleNode`'s input. -/
def tangent2 : Term := Term.sym "t2" (Sparsity.dense 2 3)

/-- A stale value left in a forward sensitivity slot. -/
def stale : Term := Term.sym "stale" (Sparsity.dense 3 2)

/-- A 2x2 symbol carrying values on its diagonal only. -/
def diagSym : Term := Term.sym "x" { size1 := 2, size2 := 2, pos := [(0, 0), (1, 1)] }

/-- A 4x1 descriptor carrying values in rows 0 and 1. -/
def topRows : Sparsity := { size1 := 4, size2 := 1, pos := [(0, 0), (1, 0)] }

/-- A 4x1 descriptor carrying values in rows 0 and 3. -/
def endRows : Sparsity := { size1 := 4, size2 := 1, pos := [(0, 0), (3, 0)] }

/-- A cursor at position 0 of a vector whose entries are all `diagSym`. -/
def diagCursor : Cursor Term := { buf := fun _ => diagSym, pos := 0 }

/-- A 2x2 descriptor carrying values in its first column. -/
def firstColumn : Sparsity := { size1 := 2, size2 := 2, pos := [(0, 0), (1, 0)] }

/-- A 2x2 symbol carrying values in its first column only. -/
def columnSym : Term := Term.sym "y" firstColumn

/-- An adjoint seed with the descriptor `topRows`. -/
def topSeed : Term := Term.sym "s" topRows

/-- A sensitivity already deposited for the input `diagSym`. -/
def diagSens : Term :=
  Term.sym "a0" { size1 := 2, size2 := 2, pos := [(0, 0), (1, 1)] }

theorem Mem.write_same {T : Type} (m : Mem T) (p : Nat) (v : T) : m.write p v p = v := by
  simp [Mem.write]

theorem Mem.write_other {T : Type} (m : Mem T) (p q : Nat) (v : T) (h : q ≠ p) :
    m.write p v q = m q := by
  simp [Mem.write, h]

/-- `copyN` leaves every address outside the destination range as it was. -/
theorem copyN_outside {T : Type} (n : Nat) :
    ∀ (m : Mem T) (first d_first q : Nat), q < d_first ∨ d_first + n ≤ q →
      copyN m first n d_first q = m q := by
  induction n with
  | zero => intro m first d_first q _; rfl
  | succ n ih =>
    intro m first d_first q hq
    have hne : q ≠ d_first := by omega
    rw [copyN, ih _ _ _ _ (by omega), Mem.write_other _ _ _ _ hne]

/-- `copyN` stores the source elements, in order, when the destination does not start inside
the source range. -/
theorem copyN_inside {T : Type} (n : Nat) :
    ∀ (m : Mem T) (first d_first : Nat), d_first ≤ first ∨ first + n ≤ d_first →
      ∀ i, i < n → copyN m first n d_first (d_first + i) = m (first + i) := by
  induction n with
  | zero => intro m first d_first _ i hi; omega
  | succ n ih =>
    intro m first d_first hsep i hi
    rw [copyN]
    cases i with
    | zero =>
      rw [copyN_outside n _ _ _ _ (by omega)]
      exact Mem.write_same _ _ _
    | succ i =>
      have h1 := ih (m.write d_first (m first)) (first + 1) (d_first + 1) (by omega) i (by omega)
      have e1 : d_first + (i + 1) = d_first + 1 + i := by omega
      have e2 : first + (i + 1) = first + 1 + i := by omega
      rw [e1, e2, h1]
      exact Mem.write_other _ _ _ _ (by omega)

/-- `copyAdj` leaves every address outside the input range as it was. -/
theorem copyAdj_outside (len : Nat) :
    ∀ (m : Mem Nat) (arg res q : Nat), q < arg ∨ arg + len ≤ q →
      copyAdj m arg res len q = m q := by
  induction len with
  | zero => intro m arg res q _; rfl
  | succ len ih =>
    intro m arg res q hq
    have hne : q ≠ arg := by omega
    rw [copyAdj, ih _ _ _ _ (by omega), Mem.write_other _ _ _ _ hne]

/-- `copyAdj` ORs each output element into the input element of the same index. -/
theorem copyAdj_inside (len : Nat) :
    ∀ (m : Mem Nat) (arg res : Nat), arg ≤ res ∨ res + len ≤ arg →
      ∀ i, i < len → copyAdj m arg res len (arg + i) = m (arg + i) ||| m (res + i) := by
  induction len with
  | zero => intro m arg res _ i hi; omega
  | succ len ih =>
    intro m arg res hsep i hi
    rw [copyAdj]
    cases i with
    | zero =>
      rw [copyAdj_outside len _ _ _ _ (by omega)]
      exact Mem.write_same _ _ _
    | succ i =>
      have h1 := ih (m.write arg (m arg ||| m res)) (arg + 1) (res + 1) (by omega) i (by omega)
      have e1 : arg + (i + 1) = arg + 1 + i := by omega
      have e2 : res + (i + 1) = res + 1 + i := by omega
      rw [e1, e2, h1, Mem.write_other _ _ _ _ (by omega), Mem.write_other _ _ _ _ (by omega)]

/-- A node returned by the constructor has the given input and the given descriptor. -/
theorem Reshape.construct_dep_sparsity {MX : Type} (E : MXApi MX) (x : MX) (sp : Sparsity)
    (node : Reshape MX) (h : Reshape.construct E x sp = .ok node) :
    node.dep = x ∧ node.sparsity = sp := by
  unfold Reshape.construct at h
  by_cases hn : E.nnz x = sp.nnz
  · rw [if_pos hn] at h
    cases h
    exact ⟨rfl, rfl⟩
  · rw [if_neg hn] at h
    cases h

/-- C1: constructing a Reshape node from `x` to `sp` succeeds if and only if
`x.nnz() == sp.nnz()`; when the counts differ the assertion fails and no node is produced;
when it succeeds the node's dependency is `x` and its output descriptor is `sp`. -/
theorem Reshape.construct_iff_nnz {MX : Type} (E : MXApi MX) (x : MX) (sp : Sparsity) :
    ((∃ node, Reshape.construct E x sp = .ok node) ↔ E.nnz x = sp.nnz) ∧
    (E.nnz x ≠ sp.nnz →
      (∃ msg, Reshape.construct E x sp = .error msg) ∧
      ∀ node, Reshape.construct E x sp ≠ .ok node) ∧
    (∀ node, Reshape.construct E x sp = .ok node → node.dep = x ∧ node.sparsity = sp) := by
  unfold Reshape.construct
  by_cases h : E.nnz x = sp.nnz
  · rw [if_pos h]
    refine ⟨⟨fun _ => h, fun _ => ⟨_, rfl⟩⟩, fun hne => absurd h hne, ?_⟩
    intro node hnode
    cases hnode
    exact ⟨rfl, rfl⟩
  · rw [if_neg h]
    refine ⟨⟨?_, fun hf => absurd hf h⟩, ?_, ?_⟩
    · rintro ⟨node, hn⟩
      cases hn
    · intro _
      exact ⟨⟨_, rfl⟩, fun node hn => by cases hn⟩
    · intro node hn
      cases hn

/-- C1 at concrete inputs: a dense 2x3 symbol is accepted with a dense 3x2 target (six
elements each) and rejected with a dense 2x2 target. -/
theorem Reshape.construct_iff_nnz_witness :
    Reshape.construct termApi (Term.sym "x" (Sparsity.dense 2 3)) (Sparsity.dense 3 2) =
      .ok exampleNode ∧
    termApi.nnz (Term.sym "x" (Sparsity.dense 2 3)) ≠ (Sparsity.dense 2 2).nnz ∧
    ∀ node, Reshape.construct termApi (Term.sym "x" (Sparsity.dense 2 3)) (Sparsity.dense 2 2) ≠
      .ok node :=
  ⟨rfl, by decide,
    ((Reshape.construct_iff_nnz termApi (Term.sym "x" (Sparsity.dense 2 3))
      (Sparsity.dense 2 2)).2.1 (by decide)).2⟩

/-- C2: for every element type, `evalGen` with the same storage for source and destination
does nothing, and with distinct (non-overlapping) storage the output buffer afterwards equals
the input buffer element for element in linear order, the input buffer being left as it was;
the result depends on the node only through its element count, and `evalD` and `evalSX` are
this same routine at their element types. -/
theorem Reshape.evalGen_copies_verbatim {MX T : Type} (self : Reshape MX) (a r : Nat)
    (args ress : List Nat) (itmp rtmp : Nat) (st : Work T) :
    (a = r → self.evalGen (a :: args) (r :: ress) itmp rtmp st = some st) ∧
    (a + self.nnz ≤ r ∨ r + self.nnz ≤ a →
      ∃ st', self.evalGen (a :: args) (r :: ress) itmp rtmp st = some st' ∧
        ∀ i, i < self.nnz → st'.w (r + i) = st.w (a + i) ∧ st'.w (a + i) = st.w (a + i)) ∧
    (∀ other : Reshape MX, other.nnz = self.nnz →
      other.evalGen (a :: args) (r :: ress) itmp rtmp st =
        self.evalGen (a :: args) (r :: ress) itmp rtmp st) ∧
    self.evalD (a :: args) (r :: ress) itmp rtmp st =
      self.evalGen (a :: args) (r :: ress) itmp rtmp st ∧
    self.evalSX (a :: args) (r :: ress) itmp rtmp st =
      self.evalGen (a :: args) (r :: ress) itmp rtmp st := by
  refine ⟨?_, ?_, ?_, rfl, rfl⟩
  · intro h
    simp [Reshape.evalGen, h]
  · intro hsep
    by_cases h : a = r
    · subst h
      refine ⟨st, by simp [Reshape.evalGen], ?_⟩
      intro i _
      exact ⟨rfl, rfl⟩
    · refine ⟨{ st with w := copy st.w a (a + self.nnz) r }, by simp [Reshape.evalGen, h], ?_⟩
      intro i hi
      have hlen : a + self.nnz - a = self.nnz := by omega
      constructor
      · show copy st.w a (a + self.nnz) r (r + i) = st.w (a + i)
        rw [copy, hlen]
        exact copyN_inside _ _ _ _ (by omega) i hi
      · show copy st.w a (a + self.nnz) r (a + i) = st.w (a + i)
        rw [copy, hlen]
        exact copyN_outside _ _ _ _ _ (by omega)
  · intro other h
    simp [Reshape.evalGen, h]

/-- C2 at a concrete input: six elements 100..105 at addresses 0..5 are copied to addresses
10..15 by a node reshaping a 2x3 value into 3x2. -/
theorem Reshape.evalGen_copies_verbatim_witness :
    (0 + exampleNode.nnz ≤ 10 ∨ 10 + exampleNode.nnz ≤ 0) ∧
    ∃ st', exampleNode.evalGen [0] [10] 0 0 exampleWork = some st' ∧
      ∀ i, i < exampleNode.nnz →
        st'.w (10 + i) = exampleWork.w (0 + i) ∧ st'.w (0 + i) = exampleWork.w (0 + i) :=
  ⟨Or.inl (by decide),
    (Reshape.evalGen_copies_verbatim exampleNode 0 10 [] [] 0 0 exampleWork).2.1
      (Or.inl (by decide))⟩

/-- C4: after `spFwd` the output words equal the input words element for element in linear
order, whatever the output held before (source and destination being the same storage or
non-overlapping storage). -/
theorem Reshape.spFwd_copies_bits {MX : Type} (self : Reshape MX) (a r : Nat)
    (args ress : List Nat) (itmp rtmp : Nat) (st : Work Nat)
    (hsep : a = r ∨ a + self.nnz ≤ r ∨ r + self.nnz ≤ a) :
    ∃ st', self.spFwd (a :: args) (r :: ress) itmp rtmp st = some st' ∧
      ∀ i, i < self.nnz → st'.w (r + i) = st.w (a + i) := by
  refine ⟨{ st with w := copyFwd st.w a r self.nnz }, by simp [Reshape.spFwd], ?_⟩
  intro i hi
  show copyFwd st.w a r self.nnz (r + i) = st.w (a + i)
  unfold copyFwd
  by_cases h : a = r
  · subst h
    simp
  · have hlen : a + self.nnz - a = self.nnz := by omega
    rw [if_pos h, copy, hlen]
    exact copyN_inside _ _ _ _ (by omega) i hi

/-- C4 at the input the claim names: a 6-element node reshaping 2x3 into 3x2, input marked
only at index 4, output holding stale marks; afterwards the output is marked at index 4 and
nowhere else. -/
theorem Reshape.spFwd_copies_bits_witness :
    (0 = 6 ∨ 0 + exampleNode.nnz ≤ 6 ∨ 6 + exampleNode.nnz ≤ 0) ∧
    exampleNode.nnz = 6 ∧
    ∃ st', exampleNode.spFwd [0] [6] 0 0 fwdWork = some st' ∧
      st'.w (6 + 4) = 1 ∧ ∀ i, i < 6 → i ≠ 4 → st'.w (6 + i) = 0 := by
  have hsep : (0 = 6 ∨ 0 + exampleNode.nnz ≤ 6 ∨ 6 + exampleNode.nnz ≤ 0) :=
    Or.inr (Or.inl (by decide))
  obtain ⟨st', hrun, hall⟩ := Reshape.spFwd_copies_bits exampleNode 0 6 [] [] 0 0 fwdWork hsep
  refine ⟨hsep, by decide, st', hrun, ?_, ?_⟩
  · rw [hall 4 (by decide)]
    rfl
  · intro i hi hne
    have hi6 : i < exampleNode.nnz := hi
    rw [hall i hi6]
    show (if 0 + i = 4 then 1 else if 6 ≤ 0 + i then 7 else 0) = 0
    rw [if_neg (by omega), if_neg (by omega)]

/-- C5: after `spAdj` each input word is the bitwise OR of its previous value and the output
word of the same linear index; no bit set in the input is cleared; and when only one output
element is marked, every other input element keeps its previous value (source and destination
being the same storage or non-overlapping storage). -/
theorem Reshape.spAdj_or_accumulates {MX : Type} (self : Reshape MX) (a r : Nat)
    (args ress : List Nat) (itmp rtmp : Nat) (st : Work Nat)
    (hsep : a = r ∨ a + self.nnz ≤ r ∨ r + self.nnz ≤ a) :
    ∃ st', self.spAdj (a :: args) (r :: ress) itmp rtmp st = some st' ∧
      (∀ i, i < self.nnz → st'.w (a + i) = st.w (a + i) ||| st.w (r + i)) ∧
      (∀ i, i < self.nnz → ∀ b, (st.w (a + i)).testBit b = true →
        (st'.w (a + i)).testBit b = true) ∧
      (∀ i, i < self.nnz → (∀ j, j < self.nnz → j ≠ i → st.w (r + j) = 0) →
        ∀ j, j < self.nnz → j ≠ i → st'.w (a + j) = st.w (a + j)) := by
  have hor : ∀ i, i < self.nnz →
      copyAdj st.w a r self.nnz (a + i) = st.w (a + i) ||| st.w (r + i) :=
    copyAdj_inside _ _ _ _ (by omega)
  refine ⟨{ st with w := copyAdj st.w a r self.nnz }, by simp [Reshape.spAdj], hor, ?_, ?_⟩
  · intro i hi b hb
    show (copyAdj st.w a r self.nnz (a + i)).testBit b = true
    rw [hor i hi, Nat.testBit_or, hb]
    rfl
  · intro i _ hzero j hj hne
    show copyAdj st.w a r self.nnz (a + j) = st.w (a + j)
    rw [hor j hj, hzero j hj hne, Nat.or_zero]

/-- C5 at a concrete input: every input element of `exampleNode` already holds bit 1 and the
output is marked only at index 4 (bit 0); afterwards input element 4 holds both bits and all
others still hold bit 1 only. -/
theorem Reshape.spAdj_or_accumulates_witness :
    (0 = 6 ∨ 0 + exampleNode.nnz ≤ 6 ∨ 6 + exampleNode.nnz ≤ 0) ∧
    exampleNode.nnz = 6 ∧
    ∃ st', exampleNode.spAdj [0] [6] 0 0 adjWork = some st' ∧
      st'.w (0 + 4) = 3 ∧ ∀ i, i < 6 → i ≠ 4 → st'.w (0 + i) = 2 := by
  have hsep : (0 = 6 ∨ 0 + exampleNode.nnz ≤ 6 ∨ 6 + exampleNode.nnz ≤ 0) :=
    Or.inr (Or.inl (by decide))
  obtain ⟨st', hrun, hor, _, _⟩ :=
    Reshape.spAdj_or_accumulates exampleNode 0 6 [] [] 0 0 adjWork hsep
  refine ⟨hsep, by decide, st', hrun, ?_, ?_⟩
  · rw [hor 4 (by decide)]
    rfl
  · intro i hi hne
    have hi6 : i < exampleNode.nnz := hi
    rw [hor i hi6]
    show (if 0 + i < 6 then 2 else if 0 + i = 10 then 1 else 0) |||
      (if 6 + i < 6 then 2 else if 6 + i = 10 then 1 else 0) = 2
    rw [if_pos (by omega), if_neg (by omega), if_neg (by omega), Nat.or_zero]

/-- The loop of `evalAdj` runs to completion when every direction it visits has a seed slot
and a sensitivity slot; it rewrites slot 0 of exactly the directions it visits. -/
theorem Reshape.evalAdjLoop_spec {MX : Type} (E : MXApi MX) (self : Reshape MX)
    (aseed : List (List MX)) (k : Nat) :
    ∀ (d : Nat) (asens : List (List MX)),
      (∀ j, d ≤ j → j < d + k → ∃ s rs, aseed[j]? = some (s :: rs)) →
      (∀ j, d ≤ j → j < d + k → ∃ a rest, asens[j]? = some (a :: rest)) →
      ∃ out, Reshape.evalAdjLoop E self aseed k d asens = some out ∧
        out.length = asens.length ∧
        (∀ j, j < d ∨ d + k ≤ j → out[j]? = asens[j]?) ∧
        (∀ j, d ≤ j → j < d + k → ∀ s rs a rest,
          aseed[j]? = some (s :: rs) → asens[j]? = some (a :: rest) →
          out[j]? = some (E.plus a (E.reshapeShape s (E.shape self.dep)) :: rest)) := by
  induction k with
  | zero =>
    intro d asens _ _
    exact ⟨asens, rfl, rfl, fun _ _ => rfl, fun j h1 h2 => by omega⟩
  | succ k ih =>
    intro d asens hseed hsens
    obtain ⟨s, rs, hs⟩ := hseed d (Nat.le_refl d) (by omega)
    obtain ⟨a, rest, ha⟩ := hsens d (Nat.le_refl d) (by omega)
    have hd : d < asens.length := by
      rcases List.getElem?_eq_some_iff.mp ha with ⟨h, _⟩
      exact h
    have hstep : Reshape.evalAdjLoop E self aseed (k + 1) d asens =
        Reshape.evalAdjLoop E self aseed k (d + 1)
          (asens.set d (E.plus a (E.reshapeShape s (E.shape self.dep)) :: rest)) := by
      simp [Reshape.evalAdjLoop, hs, ha]
    obtain ⟨out, hout, hlen, hframe, hslot⟩ :=
      ih (d + 1) (asens.set d (E.plus a (E.reshapeShape s (E.shape self.dep)) :: rest))
        (fun j h1 h2 => hseed j (by omega) (by omega))
        (fun j h1 h2 => by
          rw [List.getElem?_set_ne (by omega)]
          exact hsens j (by omega) (by omega))
    refine ⟨out, hstep.trans hout, by rw [hlen, List.length_set], ?_, ?_⟩
    · intro j hj
      rw [hframe j (by omega), List.getElem?_set_ne (by omega)]
    · intro j h1 h2 s1 rs1 a1 rest1 hs1 ha1
      by_cases hjd : j = d
      · subst hjd
        rw [hs] at hs1
        rw [ha] at ha1
        cases hs1
        cases ha1
        rw [hframe j (by omega), List.getElem?_set_self hd]
      · exact hslot j (by omega) (by omega) s1 rs1 a1 rest1 hs1
          (by rw [List.getElem?_set_ne (by omega)]; exact ha1)

/-- C3 as stated fails: the constructor accepts the 2x2 input with values on the diagonal
and the 4x1 target with values in rows 0 and 1; `evalAdj` adds the seed reshaped to the
input's dimensions 2x2, and the descriptor of that reshaped seed (values in the first column)
is not the input's descriptor.  Indeed, for every implementation of the collaborators under
which the diagonal input and the first-column input have the same dimensions, `evalAdj` adds
the very same reshaped seed for both inputs, although their descriptors differ. -/
theorem Reshape.evalAdj_descriptor_differs :
    Reshape.construct termApi diagSym topRows = .ok { dep := diagSym, sparsity := topRows } ∧
    Reshape.evalAdj termApi { dep := diagSym, sparsity := topRows } [[topSeed]] [[diagSens]] =
      some [[Term.plus diagSens (Term.reshape topSeed firstColumn)]] ∧
    termApi.sparsity (Term.reshape topSeed firstColumn) ≠ termApi.sparsity diagSym ∧
    termApi.sparsity diagSym ≠ termApi.sparsity columnSym ∧
    (∀ (E : MXApi Term) (s a : Term), E.shape diagSym = E.shape columnSym →
      Reshape.evalAdj E { dep := diagSym, sparsity := topRows } [[s]] [[a]] =
        Reshape.evalAdj E { dep := columnSym, sparsity := topRows } [[s]] [[a]]) := by
  refine ⟨rfl, by decide, by decide, by decide, ?_⟩
  intro E s a h
  simp [Reshape.evalAdj, Reshape.evalAdjLoop, h]

/-- C3 amended: when every direction `d < aseed.size()` has a seed slot and a sensitivity
slot, `evalAdj` completes and `asens[d][0]` afterwards is its previous value plus
`aseed[d][0]` reshaped to the dimensions `dep().shape()` of the node's input (added, never
assigned); all other slots are as before.  Hence two successive calls with seeds `s1` and
`s2` on a slot that held `a0` leave `(a0 + reshape(s1)) + reshape(s2)`. -/
theorem Reshape.evalAdj_accumulates {MX : Type} (E : MXApi MX) (self : Reshape MX)
    (aseed asens : List (List MX))
    (hseed : ∀ d, d < aseed.length → ∃ s rs, aseed[d]? = some (s :: rs))
    (hsens : ∀ d, d < aseed.length → ∃ a rest, asens[d]? = some (a :: rest)) :
    (∃ out : List (List MX), Reshape.evalAdj E self aseed asens = some out ∧
      out.length = asens.length ∧
      (∀ d, aseed.length ≤ d → out[d]? = asens[d]?) ∧
      (∀ (d : Nat) s rs a rest, aseed[d]? = some (s :: rs) → asens[d]? = some (a :: rest) →
        out[d]? = some (E.plus a (E.reshapeShape s (E.shape self.dep)) :: rest))) ∧
    (∀ (s1 s2 a0 : MX) (rs1 rs2 rest : List MX),
      (Reshape.evalAdj E self [s1 :: rs1] [a0 :: rest]).bind
          (Reshape.evalAdj E self [s2 :: rs2]) =
        some [E.plus (E.plus a0 (E.reshapeShape s1 (E.shape self.dep)))
          (E.reshapeShape s2 (E.shape self.dep)) :: rest]) := by
  constructor
  · obtain ⟨out, hout, hlen, hframe, hslot⟩ :=
      Reshape.evalAdjLoop_spec E self aseed aseed.length 0 asens
        (fun j _ h2 => hseed j (by omega)) (fun j _ h2 => hsens j (by omega))
    refine ⟨out, hout, hlen, fun d hd => hframe d (by omega), ?_⟩
    intro d s rs a rest hs ha
    have hd : d < aseed.length := by
      rcases List.getElem?_eq_some_iff.mp hs with ⟨h, _⟩
      exact h
    exact hslot d (Nat.zero_le d) (by omega) s rs a rest hs ha
  · intro s1 s2 a0 rs1 rs2 rest
    simp [Reshape.evalAdj, Reshape.evalAdjLoop]

/-- C3 amended, at a concrete input, with collaborator calls recorded: a slot holding `a0` receives
the seeds `s1` and then `s2`; it ends as `(a0 + reshape(s1)) + reshape(s2)`, which is not the
last contribution alone. -/
theorem Reshape.evalAdj_accumulates_witness :
    (∀ d, d < [[seed1]].length → ∃ s rs, [[seed1]][d]? = some (s :: rs)) ∧
    (∀ d, d < [[seed1]].length → ∃ a rest, [[sens0]][d]? = some (a :: rest)) ∧
    (Reshape.evalAdj termApi exampleNode [[seed1]] [[sens0]]).bind
        (Reshape.evalAdj termApi exampleNode [[seed2]])
      = some [[Term.plus (Term.plus sens0 (Term.reshape seed1 (Sparsity.dense 2 3)))
          (Term.reshape seed2 (Sparsity.dense 2 3))]] ∧
    (Reshape.evalAdj termApi exampleNode [[seed1]] [[sens0]]).bind
        (Reshape.evalAdj termApi exampleNode [[seed2]])
      ≠ some [[Term.plus sens0 (Term.reshape seed2 (Sparsity.dense 2 3))]] := by
  have hseed : ∀ d, d < [[seed1]].length → ∃ s rs, [[seed1]][d]? = some (s :: rs) := by
    intro d hd
    have h0 : d = 0 := by simpa using hd
    subst h0
    exact ⟨seed1, [], rfl⟩
  have hsens : ∀ d, d < [[seed1]].length → ∃ a rest, [[sens0]][d]? = some (a :: rest) := by
    intro d hd
    have h0 : d = 0 := by simpa using hd
    subst h0
    exact ⟨sens0, [], rfl⟩
  have h := (Reshape.evalAdj_accumulates termApi exampleNode [[seed1]] [[sens0]] hseed hsens).2
    seed1 seed2 sens0 [] [] []
  refine ⟨hseed, hsens, ?_, ?_⟩
  · rw [h]
    decide
  · rw [h]
    decide

/-- C6: when `arg[0] == res[0]`, `generate` makes no emitter call and leaves stream and
generator as they were; when they differ it makes exactly one `copyVector` request, from the
work slot of `arg[0]` to the work slot of `res[0]`, over `nnz()` elements, with index variable
"i" and trailing flag false.  The last two parts restate this for a generator that records
the requests it receives. -/
theorem Reshape.generate_single_copy {MX σ : Type} (self : Reshape MX) (gen : CodeGenerator σ)
    (a r : Int) (args ress : List Int) (s : σ) :
    (a = r → self.generate gen (a :: args) (r :: ress) s = some s) ∧
    (a ≠ r → self.generate gen (a :: args) (r :: ress) s =
      some (gen.copyVector s (gen.work a) self.nnz (gen.work r) "i" false)) ∧
    (a = r → ∀ (work : Int → String) (stream : String) (calls : List CopyVectorCall),
      self.generate (recordingGenerator work) (a :: args) (r :: ress) (stream, calls) =
        some (stream, calls)) ∧
    (a ≠ r → ∀ (work : Int → String) (stream : String) (calls : List CopyVectorCall),
      (self.generate (recordingGenerator work) (a :: args) (r :: ress) (stream, calls)).map
        (fun out => out.2) = some (calls ++ [⟨work a, self.nnz, work r, "i", false⟩])) := by
  refine ⟨?_, ?_, ?_, ?_⟩
  · intro h
    simp [Reshape.generate, h]
  · intro h
    simp [Reshape.generate, h]
  · intro h work stream calls
    simp [Reshape.generate, h]
  · intro h work stream calls
    simp [Reshape.generate, h, recordingGenerator]

/-- C6 at concrete inputs: with equal slots the recording generator receives nothing and no
text is written; with slots 0 and 1 it receives the single request `w0 -> w1` over the six
elements of `exampleNode`. -/
theorem Reshape.generate_single_copy_witness :
    exampleNode.generate (recordingGenerator exampleSlot) [3] [3] ("", []) = some ("", []) ∧
    exampleNode.generate (recordingGenerator exampleSlot) [0] [1] ("", []) =
      some ("copy w0 w1;", [⟨"w0", 6, "w1", "i", false⟩]) :=
  ⟨(Reshape.generate_single_copy exampleNode (recordingGenerator exampleSlot) 3 3 [] []
      ("", [])).1 rfl, by decide⟩

/-- C7: for a node the constructor built over `x` with any intermediate descriptor `d2`,
`getReshape(d3)` is `reshape(x, d3)`; the result is the same for every intermediate
descriptor; and with the collaborator calls recorded, the result is the single recorded call
`reshape(y, e3)` on the original input, not the chain `reshape(reshape(y, e2), e3)`, its
operand `y` being different from the node `reshape(y, e2)` itself. -/
theorem Reshape.getReshape_collapses {MX : Type} (E : MXApi MX) (x : MX) (d2 d3 : Sparsity)
    (node : Reshape MX) (hnode : Reshape.construct E x d2 = .ok node) :
    node.getReshape E d3 = E.reshape x d3 ∧
    (∀ (other : Sparsity) (node2 : Reshape MX), Reshape.construct E x other = .ok node2 →
      node2.getReshape E d3 = node.getReshape E d3) ∧
    (∀ (y : Term) (e2 e3 : Sparsity),
      Reshape.getReshape termApi { dep := y, sparsity := e2 } e3 = Term.reshape y e3 ∧
      Reshape.getReshape termApi { dep := y, sparsity := e2 } e3 ≠
        Term.reshape (Term.reshape y e2) e3 ∧
      y ≠ Term.reshape y e2) := by
  have hdep : ∀ (other : Sparsity) (node2 : Reshape MX),
      Reshape.construct E x other = .ok node2 → node2.dep = x := fun other node2 h =>
    ((Reshape.construct_dep_sparsity E x other node2 h)).1
  have hself : ∀ (y : Term) (e2 : Sparsity), y ≠ Term.reshape y e2 := by
    intro y e2 h
    have hsz := congrArg sizeOf h
    simp at hsz
    omega
  refine ⟨?_, ?_, ?_⟩
  · simp [Reshape.getReshape, hdep d2 node hnode]
  · intro other node2 h2
    simp [Reshape.getReshape, hdep d2 node hnode, hdep other node2 h2]
  · intro y e2 e3
    refine ⟨rfl, ?_, hself y e2⟩
    intro h
    have hy : y = Term.reshape y e2 := by
      simp only [Reshape.getReshape, termApi] at h
      injection h
    exact hself y e2 hy

/-- C7 at a concrete input: a dense 2x3 symbol reshaped to 3x2 and then asked for 6x1 yields
the single recorded reshape of the symbol to 6x1. -/
theorem Reshape.getReshape_collapses_witness :
    Reshape.construct termApi (Term.sym "x" (Sparsity.dense 2 3)) (Sparsity.dense 3 2) =
      .ok exampleNode ∧
    exampleNode.getReshape termApi (Sparsity.dense 6 1) =
      Term.reshape (Term.sym "x" (Sparsity.dense 2 3)) (Sparsity.dense 6 1) :=
  ⟨rfl, (Reshape.getReshape_collapses termApi (Term.sym "x" (Sparsity.dense 2 3))
    (Sparsity.dense 3 2) (Sparsity.dense 6 1) exampleNode rfl).1⟩

/-- C8: when the input and the output of the node are both vector-shaped
(`isVector(true)`), `getTranspose` returns the input itself; in every other case it returns
what `MXNode::getTranspose` returns for this node. -/
theorem Reshape.getTranspose_cases {MX : Type} (E : MXApi MX)
    (MXNode_getTranspose : Reshape MX → MX) (self : Reshape MX) :
    (E.isVector (E.sparsity self.dep) true = true → E.isVector self.sparsity true = true →
      self.getTranspose E MXNode_getTranspose = self.dep) ∧
    (¬ (E.isVector (E.sparsity self.dep) true = true ∧ E.isVector self.sparsity true = true) →
      self.getTranspose E MXNode_getTranspose = MXNode_getTranspose self) := by
  constructor
  · intro hin hout
    simp [Reshape.getTranspose, hin, hout]
  · intro h
    unfold Reshape.getTranspose
    rw [if_neg]
    simpa using h

/-- C8 at concrete inputs: the transpose of a 3x1 symbol reshaped to 1x3 is the symbol; the
transpose of the 2x3 to 3x2 node is the recorded generic transpose. -/
theorem Reshape.getTranspose_cases_witness :
    vectorNode.getTranspose termApi termBaseTranspose = Term.sym "v" (Sparsity.dense 3 1) ∧
    exampleNode.getTranspose termApi termBaseTranspose =
      Term.transpose (Term.sym "x" (Sparsity.dense 2 3)) (Sparsity.dense 3 2) :=
  ⟨(Reshape.getTranspose_cases termApi termBaseTranspose vectorNode).1 (by decide) (by decide),
    (Reshape.getTranspose_cases termApi termBaseTranspose exampleNode).2 (by decide)⟩

/-- C9: the code at two failing inputs.  The constructor accepts a dense 3x1 input with the
dense 3x1 target, and a 6x1 input carrying two values with a 1x4 target carrying two values;
in both nodes input and output are vector-shaped, yet the output dimensions are not the input
dimensions swapped, and `getTranspose`, which takes every such node for a transpose, returns
the input, whose dimensions are not those of the transpose of the node's output. -/
theorem Reshape.vector_reshape_not_always_transpose :
    (∃ node, Reshape.construct termApi (Term.sym "v" (Sparsity.dense 3 1)) (Sparsity.dense 3 1)
        = .ok node ∧
      termApi.isVector (termApi.sparsity node.dep) true = true ∧
      termApi.isVector node.sparsity true = true ∧
      node.shape ≠ ((termApi.shape node.dep).2, (termApi.shape node.dep).1) ∧
      termApi.shape (node.getTranspose termApi termBaseTranspose) ≠
        (node.shape.2, node.shape.1)) ∧
    (∃ node, Reshape.construct termApi (Term.sym "u" ⟨6, 1, [(0, 0), (3, 0)]⟩)
        ⟨1, 4, [(0, 1), (0, 2)]⟩ = .ok node ∧
      termApi.isVector (termApi.sparsity node.dep) true = true ∧
      termApi.isVector node.sparsity true = true ∧
      node.shape ≠ ((termApi.shape node.dep).2, (termApi.shape node.dep).1) ∧
      termApi.shape (node.getTranspose termApi termBaseTranspose) ≠
        (node.shape.2, node.shape.1)) :=
  ⟨⟨_, rfl, by decide, by decide, by decide, by decide⟩,
    ⟨_, rfl, by decide, by decide, by decide, by decide⟩⟩

/-- Where a vector-to-vector reshape is a transpose: when the input `x` and the target `sp`
are both vector-shaped, have the same number of positions (rows times columns) and do not
have the same dimensions, the node the constructor returns has as output dimensions the input
dimensions with rows and columns swapped, and the value `getTranspose` returns (the input)
has the dimensions of the transpose of the node's output.  `hvec` is the meaning of
`isVector(true)`: one row or one column. -/
theorem Reshape.vector_reshape_is_transpose {MX : Type} (E : MXApi MX)
    (MXNode_getTranspose : Reshape MX → MX) (x : MX) (sp : Sparsity) (node : Reshape MX)
    (hvec : ∀ s, E.isVector s true = true → s.size1 = 1 ∨ s.size2 = 1)
    (hnode : Reshape.construct E x sp = .ok node)
    (hin : E.isVector (E.sparsity x) true = true)
    (hout : E.isVector sp true = true)
    (hnumel : (E.sparsity x).numel = sp.numel)
    (hne : sp.shape ≠ E.shape x) :
    node.shape = ((E.shape node.dep).2, (E.shape node.dep).1) ∧
    E.shape (node.getTranspose E MXNode_getTranspose) = (node.shape.2, node.shape.1) := by
  obtain ⟨hdep, hsp⟩ := Reshape.construct_dep_sparsity E x sp node hnode
  have hret : node.getTranspose E MXNode_getTranspose = node.dep := by
    simp [Reshape.getTranspose, hdep, hsp, hin, hout]
  rw [hret, hdep]
  have h1 := hvec _ hin
  have h2 := hvec _ hout
  simp only [Reshape.shape, hsp, MXApi.shape, Sparsity.shape, Sparsity.numel, ne_eq,
    Prod.mk.injEq] at *
  rcases h1 with h1 | h1 <;> rcases h2 with h2 | h2 <;> rw [h1, h2] at hnumel <;>
    simp only [Nat.one_mul, Nat.mul_one] at hnumel <;> omega

/-- A dense 3x1 symbol reshaped to 1x3 is a transpose, and `getTranspose` returns a value of
the transposed dimensions. -/
theorem Reshape.vector_reshape_is_transpose_witness :
    (∀ s, termApi.isVector s true = true → s.size1 = 1 ∨ s.size2 = 1) ∧
    Reshape.construct termApi (Term.sym "v" (Sparsity.dense 3 1)) (Sparsity.dense 1 3) =
      .ok vectorNode ∧
    vectorNode.shape = (1, 3) ∧ termApi.shape vectorNode.dep = (3, 1) ∧
    termApi.shape (vectorNode.getTranspose termApi termBaseTranspose) = (3, 1) := by
  have hvec : ∀ s, termApi.isVector s true = true → s.size1 = 1 ∨ s.size2 = 1 := by
    intro s hs
    simpa [termApi, Sparsity.isVector] using hs
  have h := Reshape.vector_reshape_is_transpose termApi termBaseTranspose
    (Term.sym "v" (Sparsity.dense 3 1)) (Sparsity.dense 1 3) vectorNode hvec rfl
    (by decide) (by decide) (by decide) (by decide)
  exact ⟨hvec, rfl, by decide, by decide, h.2⟩

/-- C10: for a node whose input and output are both vector-shaped, `printPart` with part 0
writes nothing, `printPart` with any other part writes exactly the prime character, and so
the operand text written between the two calls ends up followed by a prime. -/
theorem Reshape.printPart_transpose {MX : Type} (E : MXApi MX) (self : Reshape MX)
    (stream : String) (part : Int)
    (hin : E.isVector (E.sparsity self.dep) true = true)
    (hout : E.isVector self.sparsity true = true) :
    self.printPart E stream 0 = stream ∧
    (part ≠ 0 → self.printPart E stream part = stream ++ "'") ∧
    (part ≠ 0 → ∀ operand : String,
      self.printPart E (self.printPart E stream 0 ++ operand) part =
        stream ++ operand ++ "'") := by
  refine ⟨?_, ?_, ?_⟩
  · simp [Reshape.printPart, hin, hout]
  · intro hp
    simp [Reshape.printPart, hin, hout, hp]
  · intro hp operand
    simp [Reshape.printPart, hin, hout, hp]

/-- C10 at a concrete input: the 3x1 symbol reshaped to 1x3 prints as `v'`. -/
theorem Reshape.printPart_transpose_witness :
    termApi.isVector (termApi.sparsity vectorNode.dep) true = true ∧
    termApi.isVector vectorNode.sparsity true = true ∧
    vectorNode.printPart termApi "" 0 = "" ∧
    vectorNode.printPart termApi (vectorNode.printPart termApi "" 0 ++ "v") 1 = "v'" := by
  have h := Reshape.printPart_transpose termApi vectorNode "" 1 (by decide) (by decide)
  exact ⟨by decide, by decide, h.1, by simpa using h.2.2 (by decide) "v"⟩

/-- C14: the structural queries delegate unchanged to the input node: `isValidInput()` is
true exactly when the input's is, `numPrimitives()` is the input's count, `hasDuplicates()`
returns what the input's call returns and leaves the state the input's call leaves; any two
nodes over the same input give the same three results, whatever their output descriptors. -/
theorem Reshape.queries_delegate {MX σ : Type} (N : NodeApi MX σ) (self : Reshape MX)
    (s : σ) :
    (self.isValidInput N = true ↔ N.isValidInput self.dep = true) ∧
    self.isValidInput N = N.isValidInput self.dep ∧
    self.numPrimitives N = N.numPrimitives self.dep ∧
    self.hasDuplicates N s = N.hasDuplicates self.dep s ∧
    (∀ sp : Sparsity,
      Reshape.isValidInput N { dep := self.dep, sparsity := sp } = self.isValidInput N ∧
      Reshape.numPrimitives N { dep := self.dep, sparsity := sp } = self.numPrimitives N ∧
      Reshape.hasDuplicates N { dep := self.dep, sparsity := sp } s =
        self.hasDuplicates N s) := by
  have hvalid : self.isValidInput N = N.isValidInput self.dep := by
    unfold Reshape.isValidInput
    cases N.isValidInput self.dep <;> rfl
  exact ⟨by rw [hvalid], hvalid, rfl, rfl, fun _ => ⟨rfl, rfl, rfl⟩⟩

/-- C14 at a concrete input: over a single-primitive input, the 2x3 to 3x2 node is a valid
input, has one primitive and reports the visited mark it finds. -/
theorem Reshape.queries_delegate_witness :
    exampleNode.isValidInput (leafNode Term) = true ∧
    exampleNode.numPrimitives (leafNode Term) = 1 ∧
    exampleNode.hasDuplicates (leafNode Term) false = (false, true) ∧
    exampleNode.hasDuplicates (leafNode Term) true = (true, true) :=
  ⟨(Reshape.queries_delegate (leafNode Term) exampleNode false).1.mpr rfl,
    (Reshape.queries_delegate (leafNode Term) exampleNode false).2.2.1,
    (Reshape.queries_delegate (leafNode Term) exampleNode false).2.2.2.1,
    (Reshape.queries_delegate (leafNode Term) exampleNode true).2.2.2.1⟩

/-- C17: a call of `evalGen` changes no address outside the first `nnz()` elements of the
output buffer: the input buffer is as before when it is the same or non-overlapping storage,
every output element of index at least `nnz()` keeps its value, the integer workspace is as
before, and the result is the same for every value of `itmp` and `rtmp` and every content of
the integer workspace. -/
theorem Reshape.evalGen_frame {MX T : Type} (self : Reshape MX) (a r : Nat)
    (args ress : List Nat) (itmp rtmp : Nat) (st : Work T) :
    ∃ st', self.evalGen (a :: args) (r :: ress) itmp rtmp st = some st' ∧
      (∀ p, p < r ∨ r + self.nnz ≤ p → st'.w p = st.w p) ∧
      (a = r ∨ a + self.nnz ≤ r ∨ r + self.nnz ≤ a →
        ∀ i, i < self.nnz → st'.w (a + i) = st.w (a + i)) ∧
      (∀ i, self.nnz ≤ i → st'.w (r + i) = st.w (r + i)) ∧
      st'.iw = st.iw ∧
      (∀ (itmp2 rtmp2 : Nat) (iw2 : Mem Int),
        self.evalGen (a :: args) (r :: ress) itmp2 rtmp2 { w := st.w, iw := iw2 } =
          some { w := st'.w, iw := iw2 }) := by
  by_cases h : a = r
  · refine ⟨st, by simp [Reshape.evalGen, h], fun _ _ => rfl, fun _ _ _ => rfl,
      fun _ _ => rfl, rfl, ?_⟩
    intro itmp2 rtmp2 iw2
    simp [Reshape.evalGen, h]
  · have hlen : a + self.nnz - a = self.nnz := by omega
    have hout : ∀ p, p < r ∨ r + self.nnz ≤ p →
        copy st.w a (a + self.nnz) r p = st.w p := by
      intro p hp
      rw [copy, hlen]
      exact copyN_outside _ _ _ _ _ hp
    refine ⟨{ st with w := copy st.w a (a + self.nnz) r }, by simp [Reshape.evalGen, h],
      hout, ?_, ?_, rfl, ?_⟩
    · intro hsep i hi
      exact hout (a + i) (by omega)
    · intro i hi
      exact hout (r + i) (by omega)
    · intro itmp2 rtmp2 iw2
      simp [Reshape.evalGen, h]

/-- C17 at a concrete input: `exampleNode` copies addresses 0..5 to 10..15; the input element
3, the output element of index 6 (address 16) and the integer workspace are as before. -/
theorem Reshape.evalGen_frame_witness :
    ∃ st', exampleNode.evalGen [0] [10] 0 0 exampleWork = some st' ∧
      st'.w 3 = 103 ∧ st'.w (10 + 6) = 116 ∧ st'.iw = exampleWork.iw := by
  obtain ⟨st', hrun, hout, _, hidx, hiw, _⟩ :=
    Reshape.evalGen_frame exampleNode 0 10 [] [] 0 0 exampleWork
  refine ⟨st', hrun, ?_, ?_, hiw⟩
  · rw [hout 3 (by decide)]
    rfl
  · rw [hidx 6 (by decide)]
    rfl

/-! ### The direction loops -/

/-- The loop of `evalFwd` runs to completion when every direction it visits has a seed slot
and a sensitivity slot; it assigns slot 0 of exactly the directions it visits. -/
theorem Reshape.evalFwdLoop_spec {MX : Type} (E : MXApi MX) (self : Reshape MX)
    (fseed : List (List MX)) (k : Nat) :
    ∀ (d : Nat) (fsens : List (List MX)),
      (∀ j, d ≤ j → j < d + k → ∃ s rs, fseed[j]? = some (s :: rs)) →
      (∀ j, d ≤ j → j < d + k → ∃ a rest, fsens[j]? = some (a :: rest)) →
      ∃ out, Reshape.evalFwdLoop E self fseed k d fsens = some out ∧
        out.length = fsens.length ∧
        (∀ j, j < d ∨ d + k ≤ j → out[j]? = fsens[j]?) ∧
        (∀ j, d ≤ j → j < d + k → ∀ s rs a rest,
          fseed[j]? = some (s :: rs) → fsens[j]? = some (a :: rest) →
          out[j]? = some (E.reshapeShape s self.shape :: rest)) := by
  induction k with
  | zero =>
    intro d fsens _ _
    exact ⟨fsens, rfl, rfl, fun _ _ => rfl, fun j h1 h2 => by omega⟩
  | succ k ih =>
    intro d fsens hseed hsens
    obtain ⟨s, rs, hs⟩ := hseed d (Nat.le_refl d) (by omega)
    obtain ⟨a, rest, ha⟩ := hsens d (Nat.le_refl d) (by omega)
    have hd : d < fsens.length := by
      rcases List.getElem?_eq_some_iff.mp ha with ⟨h, _⟩
      exact h
    have hstep : Reshape.evalFwdLoop E self fseed (k + 1) d fsens =
        Reshape.evalFwdLoop E self fseed k (d + 1)
          (fsens.set d (E.reshapeShape s self.shape :: rest)) := by
      simp [Reshape.evalFwdLoop, hs, ha]
    obtain ⟨out, hout, hlen, hframe, hslot⟩ :=
      ih (d + 1) (fsens.set d (E.reshapeShape s self.shape :: rest))
        (fun j h1 h2 => hseed j (by omega) (by omega))
        (fun j h1 h2 => by
          rw [List.getElem?_set_ne (by omega)]
          exact hsens j (by omega) (by omega))
    refine ⟨out, hstep.trans hout, by rw [hlen, List.length_set], ?_, ?_⟩
    · intro j hj
      rw [hframe j (by omega), List.getElem?_set_ne (by omega)]
    · intro j h1 h2 s1 rs1 a1 rest1 hs1 ha1
      by_cases hjd : j = d
      · subst hjd
        rw [hs] at hs1
        rw [ha] at ha1
        cases hs1
        cases ha1
        rw [hframe j (by omega), List.getElem?_set_self hd]
      · exact hslot j (by omega) (by omega) s1 rs1 a1 rest1 hs1
          (by rw [List.getElem?_set_ne (by omega)]; exact ha1)

/-- The loop of `evalFwd` reads nothing of the seed batch but slot 0 of the directions it
visits. -/
theorem Reshape.evalFwdLoop_congr {MX : Type} (E : MXApi MX) (self : Reshape MX)
    (fseed fseed2 : List (List MX)) (k : Nat) :
    ∀ (d : Nat) (fsens : List (List MX)),
      (∀ j, d ≤ j → j < d + k →
        (fseed2[j]?).bind (fun row => row[0]?) = (fseed[j]?).bind (fun row => row[0]?)) →
      Reshape.evalFwdLoop E self fseed2 k d fsens =
        Reshape.evalFwdLoop E self fseed k d fsens := by
  induction k with
  | zero => intro d fsens _; rfl
  | succ k ih =>
    intro d fsens hagree
    have key : ∀ fs : List (List MX), Reshape.evalFwdLoop E self fs (k + 1) d fsens =
        ((fs[d]?).bind (fun row => row[0]?)).bind (fun seed =>
          (fsens[d]?).bind (fun sens => (sens[0]?).bind (fun _ =>
            Reshape.evalFwdLoop E self fs k (d + 1)
              (fsens.set d (sens.set 0 (E.reshapeShape seed self.shape)))))) := by
      intro fs
      cases h1 : fs[d]? with
      | none => simp [Reshape.evalFwdLoop, h1]
      | some row =>
        cases h2 : row[0]? with
        | none => simp [Reshape.evalFwdLoop, h1, h2]
        | some seed => simp [Reshape.evalFwdLoop, h1, h2]
    have ih2 : ∀ fsens2 : List (List MX),
        Reshape.evalFwdLoop E self fseed2 k (d + 1) fsens2 =
          Reshape.evalFwdLoop E self fseed k (d + 1) fsens2 := fun fsens2 =>
      ih (d + 1) fsens2 (fun j h1 h2 => hagree j (by omega) (by omega))
    rw [key fseed2, key fseed, hagree d (Nat.le_refl d) (by omega)]
    simp only [ih2]

/-- The loop of `evalAdj` reads nothing of the seed batch but slot 0 of the directions it
visits. -/
theorem Reshape.evalAdjLoop_congr {MX : Type} (E : MXApi MX) (self : Reshape MX)
    (aseed aseed2 : List (List MX)) (k : Nat) :
    ∀ (d : Nat) (asens : List (List MX)),
      (∀ j, d ≤ j → j < d + k →
        (aseed2[j]?).bind (fun row => row[0]?) = (aseed[j]?).bind (fun row => row[0]?)) →
      Reshape.evalAdjLoop E self aseed2 k d asens =
        Reshape.evalAdjLoop E self aseed k d asens := by
  induction k with
  | zero => intro d asens _; rfl
  | succ k ih =>
    intro d asens hagree
    have key : ∀ fs : List (List MX), Reshape.evalAdjLoop E self fs (k + 1) d asens =
        ((fs[d]?).bind (fun row => row[0]?)).bind (fun seed =>
          (asens[d]?).bind (fun sens => (sens[0]?).bind (fun old =>
            Reshape.evalAdjLoop E self fs k (d + 1)
              (asens.set d (sens.set 0
                (E.plus old (E.reshapeShape seed (E.shape self.dep)))))))) := by
      intro fs
      cases h1 : fs[d]? with
      | none => simp [Reshape.evalAdjLoop, h1]
      | some row =>
        cases h2 : row[0]? with
        | none => simp [Reshape.evalAdjLoop, h1, h2]
        | some seed => simp [Reshape.evalAdjLoop, h1, h2]
    have ih2 : ∀ asens2 : List (List MX),
        Reshape.evalAdjLoop E self aseed2 k (d + 1) asens2 =
          Reshape.evalAdjLoop E self aseed k (d + 1) asens2 := fun asens2 =>
      ih (d + 1) asens2 (fun j h1 h2 => hagree j (by omega) (by omega))
    rw [key aseed2, key aseed, hagree d (Nat.le_refl d) (by omega)]
    simp only [ih2]

/-- `evalFwd` completes when every direction `d < fsens.size()` has a seed slot and a
sensitivity slot, and assigns the reshaped seed to slot 0 of each direction. -/
theorem Reshape.evalFwd_spec {MX : Type} (E : MXApi MX) (self : Reshape MX)
    (fseed fsens : List (List MX))
    (hseed : ∀ d, d < fsens.length → ∃ s rs, fseed[d]? = some (s :: rs))
    (hsens : ∀ d, d < fsens.length → ∃ a rest, fsens[d]? = some (a :: rest)) :
    ∃ out : List (List MX), Reshape.evalFwd E self fseed fsens = some out ∧
      out.length = fsens.length ∧
      (∀ (d : Nat) s rs a rest, fseed[d]? = some (s :: rs) → fsens[d]? = some (a :: rest) →
        out[d]? = some (E.reshapeShape s self.shape :: rest)) := by
  obtain ⟨out, hout, hlen, _, hslot⟩ :=
    Reshape.evalFwdLoop_spec E self fseed fsens.length 0 fsens
      (fun j _ h2 => hseed j (by omega)) (fun j _ h2 => hsens j (by omega))
  refine ⟨out, hout, hlen, ?_⟩
  intro d s rs a rest hs ha
  have hd : d < fsens.length := by
    rcases List.getElem?_eq_some_iff.mp ha with ⟨h, _⟩
    exact h
  exact hslot d (Nat.zero_le d) (by omega) s rs a rest hs ha

/-- `evalAdj` completes when every direction `d < aseed.size()` has a seed slot and a
sensitivity slot; it adds the reshaped seed to slot 0 of each such direction and leaves the
directions beyond them as they were. -/
theorem Reshape.evalAdj_spec {MX : Type} (E : MXApi MX) (self : Reshape MX)
    (aseed asens : List (List MX))
    (hseed : ∀ d, d < aseed.length → ∃ s rs, aseed[d]? = some (s :: rs))
    (hsens : ∀ d, d < aseed.length → ∃ a rest, asens[d]? = some (a :: rest)) :
    ∃ out : List (List MX), Reshape.evalAdj E self aseed asens = some out ∧
      out.length = asens.length ∧
      (∀ d, aseed.length ≤ d → out[d]? = asens[d]?) ∧
      (∀ (d : Nat) s rs a rest, aseed[d]? = some (s :: rs) → asens[d]? = some (a :: rest) →
        out[d]? = some (E.plus a (E.reshapeShape s (E.shape self.dep)) :: rest)) := by
  obtain ⟨out, hout, hlen, hframe, hslot⟩ :=
    Reshape.evalAdjLoop_spec E self aseed aseed.length 0 asens
      (fun j _ h2 => hseed j (by omega)) (fun j _ h2 => hsens j (by omega))
  refine ⟨out, hout, hlen, fun d hd => hframe d (by omega), ?_⟩
  intro d s rs a rest hs ha
  have hd : d < aseed.length := by
    rcases List.getElem?_eq_some_iff.mp hs with ⟨h, _⟩
    exact h
  exact hslot d (Nat.zero_le d) (by omega) s rs a rest hs ha

/-- Slot 0 of a row that is known to start with `s`. -/
theorem slot_zero_of_cons {MX : Type} (rows : List (List MX)) (d : Nat) (s : MX)
    (rs : List MX) (h : rows[d]? = some (s :: rs)) :
    (rows[d]?).bind (fun row => row[0]?) = some s := by
  simp [h]

/-- C15: when every direction `d < fsens.size()` has a seed slot and a sensitivity slot,
`evalFwd` completes and row `d` of the result is what `evalMX` makes of the row `fsens[d]`
when given the row `fseed[d]` as `arg`: slot 0 holds the seed reshaped to the node's shape.
The old content of the slot plays no part: any two old values give the same result. -/
theorem Reshape.evalFwd_matches_evalMX {MX : Type} (E : MXApi MX) (self : Reshape MX)
    (fseed fsens : List (List MX))
    (hseed : ∀ d, d < fsens.length → ∃ s rs, fseed[d]? = some (s :: rs))
    (hsens : ∀ d, d < fsens.length → ∃ a rest, fsens[d]? = some (a :: rest)) :
    (∃ out : List (List MX), Reshape.evalFwd E self fseed fsens = some out ∧
      out.length = fsens.length ∧
      ∀ (d : Nat) s rs a rest, fseed[d]? = some (s :: rs) → fsens[d]? = some (a :: rest) →
        out[d]? = Reshape.evalMX E self (s :: rs) (a :: rest) ∧
        out[d]? = some (E.reshapeShape s self.shape :: rest)) ∧
    (∀ (s a b : MX) (rs rest : List MX),
      Reshape.evalFwd E self [s :: rs] [a :: rest] =
        some [E.reshapeShape s self.shape :: rest] ∧
      Reshape.evalFwd E self [s :: rs] [b :: rest] =
        Reshape.evalFwd E self [s :: rs] [a :: rest]) := by
  constructor
  · obtain ⟨out, hout, hlen, hslot⟩ := Reshape.evalFwd_spec E self fseed fsens hseed hsens
    refine ⟨out, hout, hlen, ?_⟩
    intro d s rs a rest hs ha
    have h := hslot d s rs a rest hs ha
    refine ⟨?_, h⟩
    rw [h]
    simp [Reshape.evalMX]
  · intro s a b rs rest
    simp [Reshape.evalFwd, Reshape.evalFwdLoop]

/-- C15 at a concrete input, with collaborator calls recorded: the seed `t1` replaces the
stale content of the slot by `reshape(t1, 3x2)`, which is what `evalMX` yields for `t1`. -/
theorem Reshape.evalFwd_matches_evalMX_witness :
    (∀ d, d < [[stale]].length → ∃ s rs, [[tangent1]][d]? = some (s :: rs)) ∧
    (∀ d, d < [[stale]].length → ∃ a rest, [[stale]][d]? = some (a :: rest)) ∧
    Reshape.evalFwd termApi exampleNode [[tangent1]] [[stale]] =
      some [[Term.reshape tangent1 (Sparsity.dense 3 2)]] ∧
    Reshape.evalMX termApi exampleNode [tangent1] [stale] =
      some [Term.reshape tangent1 (Sparsity.dense 3 2)] := by
  have hseed : ∀ d, d < [[stale]].length → ∃ s rs, [[tangent1]][d]? = some (s :: rs) := by
    intro d hd
    have h0 : d = 0 := by simpa using hd
    subst h0
    exact ⟨tangent1, [], rfl⟩
  have hsens : ∀ d, d < [[stale]].length → ∃ a rest, [[stale]][d]? = some (a :: rest) := by
    intro d hd
    have h0 : d = 0 := by simpa using hd
    subst h0
    exact ⟨stale, [], rfl⟩
  have h := (Reshape.evalFwd_matches_evalMX termApi exampleNode [[tangent1]] [[stale]]
    hseed hsens).2 tangent1 stale stale [] []
  refine ⟨hseed, hsens, ?_, by decide⟩
  rw [h.1]
  decide

/-- C18 as stated fails: with one forward seed direction holding one slot and one
sensitivity direction holding no slot, `fseed` has at least `fsens.size()` directions, each
with a slot, yet `evalFwd` indexes `fsens[0][0]` out of range; with one adjoint seed
direction holding no slot and one sensitivity direction holding one slot, `asens` has at
least `aseed.size()` directions, each with a slot, yet `evalAdj` indexes `aseed[0][0]` out of
range. -/
theorem Reshape.direction_slot_out_of_range :
    ([[]] : List (List Term)).length ≤ [[tangent1]].length ∧
    (∀ row, row ∈ [[tangent1]] → row ≠ []) ∧
    Reshape.evalFwd termApi exampleNode [[tangent1]] [[]] = none ∧
    ([[]] : List (List Term)).length ≤ [[sens0]].length ∧
    (∀ row, row ∈ [[sens0]] → row ≠ []) ∧
    Reshape.evalAdj termApi exampleNode [[]] [[sens0]] = none := by
  refine ⟨by decide, ?_, by decide, by decide, ?_, by decide⟩
  · intro row hrow
    have h : row = [tangent1] := by simpa using hrow
    rw [h]
    exact List.cons_ne_nil _ _
  · intro row hrow
    have h : row = [sens0] := by simpa using hrow
    rw [h]
    exact List.cons_ne_nil _ _

/-- C18 amended: when every direction `d < fsens.size()` has a slot `fseed[d][0]` and a slot
`fsens[d][0]`, and every direction `d < aseed.size()` has a slot `aseed[d][0]` and a slot
`asens[d][0]`, every index is in range: `evalFwd` and `evalAdj` complete.  `evalFwd` assigns
slot 0 of each direction and keeps the other slots, `evalAdj` adds into slot 0 of each
direction below `aseed.size()` and keeps everything else.  Both read nothing of the seed batch
but slot 0 of the same direction, so the result for a direction is the same for every seed
batch that agrees with the given one on that direction.  An empty batch changes nothing. -/
theorem Reshape.directions_independent {MX : Type} (E : MXApi MX) (self : Reshape MX)
    (fseed fsens aseed asens : List (List MX))
    (hfseed : ∀ d, d < fsens.length → ∃ s rs, fseed[d]? = some (s :: rs))
    (hfsens : ∀ d, d < fsens.length → ∃ a rest, fsens[d]? = some (a :: rest))
    (haseed : ∀ d, d < aseed.length → ∃ s rs, aseed[d]? = some (s :: rs))
    (hasens : ∀ d, d < aseed.length → ∃ a rest, asens[d]? = some (a :: rest)) :
    (∃ out : List (List MX), Reshape.evalFwd E self fseed fsens = some out ∧
      out.length = fsens.length ∧
      ∀ (d : Nat) s rs a rest, fseed[d]? = some (s :: rs) → fsens[d]? = some (a :: rest) →
        out[d]? = some (E.reshapeShape s self.shape :: rest)) ∧
    (∀ fseed2 : List (List MX),
      (∀ d, d < fsens.length →
        (fseed2[d]?).bind (fun row => row[0]?) = (fseed[d]?).bind (fun row => row[0]?)) →
      Reshape.evalFwd E self fseed2 fsens = Reshape.evalFwd E self fseed fsens) ∧
    (∀ (fseed2 : List (List MX)) (d : Nat) (out out2 : List (List MX)),
      (∀ j, j < fsens.length → ∃ s rs, fseed2[j]? = some (s :: rs)) →
      (fseed2[d]?).bind (fun row => row[0]?) = (fseed[d]?).bind (fun row => row[0]?) →
      Reshape.evalFwd E self fseed fsens = some out →
      Reshape.evalFwd E self fseed2 fsens = some out2 → out2[d]? = out[d]?) ∧
    (∃ out : List (List MX), Reshape.evalAdj E self aseed asens = some out ∧
      out.length = asens.length ∧
      (∀ d, aseed.length ≤ d → out[d]? = asens[d]?) ∧
      ∀ (d : Nat) s rs a rest, aseed[d]? = some (s :: rs) → asens[d]? = some (a :: rest) →
        out[d]? = some (E.plus a (E.reshapeShape s (E.shape self.dep)) :: rest)) ∧
    (∀ aseed2 : List (List MX), aseed2.length = aseed.length →
      (∀ d, d < aseed.length →
        (aseed2[d]?).bind (fun row => row[0]?) = (aseed[d]?).bind (fun row => row[0]?)) →
      Reshape.evalAdj E self aseed2 asens = Reshape.evalAdj E self aseed asens) ∧
    (∀ (aseed2 : List (List MX)) (d : Nat) (out out2 : List (List MX)),
      aseed2.length = aseed.length →
      (∀ j, j < aseed.length → ∃ s rs, aseed2[j]? = some (s :: rs)) →
      (aseed2[d]?).bind (fun row => row[0]?) = (aseed[d]?).bind (fun row => row[0]?) →
      Reshape.evalAdj E self aseed asens = some out →
      Reshape.evalAdj E self aseed2 asens = some out2 → out2[d]? = out[d]?) ∧
    Reshape.evalFwd E self fseed [] = some [] ∧
    Reshape.evalAdj E self [] asens = some asens := by
  refine ⟨Reshape.evalFwd_spec E self fseed fsens hfseed hfsens, ?_, ?_,
    Reshape.evalAdj_spec E self aseed asens haseed hasens, ?_, ?_, rfl, rfl⟩
  · intro fseed2 hagree
    exact Reshape.evalFwdLoop_congr E self fseed fseed2 fsens.length 0 fsens
      (fun j _ h2 => hagree j (by omega))
  · intro fseed2 d out out2 hin2 hagree hrun hrun2
    obtain ⟨o1, ho1, hl1, hs1⟩ := Reshape.evalFwd_spec E self fseed fsens hfseed hfsens
    obtain ⟨o2, ho2, hl2, hs2⟩ := Reshape.evalFwd_spec E self fseed2 fsens hin2 hfsens
    rw [hrun] at ho1
    rw [hrun2] at ho2
    cases ho1
    cases ho2
    by_cases hd : d < fsens.length
    · obtain ⟨s, rs, hs⟩ := hfseed d hd
      obtain ⟨s2, rs2, hs2e⟩ := hin2 d hd
      obtain ⟨a, rest, ha⟩ := hfsens d hd
      rw [slot_zero_of_cons _ _ _ _ hs, slot_zero_of_cons _ _ _ _ hs2e] at hagree
      cases hagree
      rw [hs1 d s rs a rest hs ha, hs2 d s rs2 a rest hs2e ha]
    · rw [List.getElem?_eq_none (by omega), List.getElem?_eq_none (by omega)]
  · intro aseed2 hlen hagree
    unfold Reshape.evalAdj
    rw [hlen]
    exact Reshape.evalAdjLoop_congr E self aseed aseed2 aseed.length 0 asens
      (fun j _ h2 => hagree j (by omega))
  · intro aseed2 d out out2 hlen hin2 hagree hrun hrun2
    obtain ⟨o1, ho1, _, hf1, hs1⟩ := Reshape.evalAdj_spec E self aseed asens haseed hasens
    obtain ⟨o2, ho2, _, hf2, hs2⟩ := Reshape.evalAdj_spec E self aseed2 asens
      (fun j hj => hin2 j (by omega)) (fun j hj => hasens j (by omega))
    rw [hrun] at ho1
    rw [hrun2] at ho2
    cases ho1
    cases ho2
    by_cases hd : d < aseed.length
    · obtain ⟨s, rs, hs⟩ := haseed d hd
      obtain ⟨s2, rs2, hs2e⟩ := hin2 d hd
      obtain ⟨a, rest, ha⟩ := hasens d hd
      rw [slot_zero_of_cons _ _ _ _ hs, slot_zero_of_cons _ _ _ _ hs2e] at hagree
      cases hagree
      rw [hs1 d s rs a rest hs ha, hs2 d s rs2 a rest hs2e ha]
    · rw [hf1 d (by omega), hf2 d (by omega)]

/-- C18 amended, at a concrete input, with collaborator calls recorded: two directions; each slot 0
receives the reshape of the seed of its own direction. -/
theorem Reshape.directions_independent_witness :
    (∀ d, d < [[stale], [stale]].length →
      ∃ s rs, [[tangent1], [tangent2]][d]? = some (s :: rs)) ∧
    (∀ d, d < [[stale], [stale]].length →
      ∃ a rest, [[stale], [stale]][d]? = some (a :: rest)) ∧
    (∀ d, d < [[seed1], [seed2]].length →
      ∃ s rs, [[seed1], [seed2]][d]? = some (s :: rs)) ∧
    (∀ d, d < [[seed1], [seed2]].length →
      ∃ a rest, [[sens0], [sens0]][d]? = some (a :: rest)) ∧
    Reshape.evalFwd termApi exampleNode [[tangent1], [tangent2]] [[stale], [stale]] =
      some [[Term.reshape tangent1 (Sparsity.dense 3 2)],
        [Term.reshape tangent2 (Sparsity.dense 3 2)]] ∧
    Reshape.evalAdj termApi exampleNode [[seed1], [seed2]] [[sens0], [sens0]] =
      some [[Term.plus sens0 (Term.reshape seed1 (Sparsity.dense 2 3))],
        [Term.plus sens0 (Term.reshape seed2 (Sparsity.dense 2 3))]] ∧
    Reshape.evalAdj termApi exampleNode [] [[sens0], [sens0]] = some [[sens0], [sens0]] := by
  have two : ∀ (x y : Term) (d : Nat), d < 2 → ∃ s rs, [[x], [y]][d]? = some (s :: rs) := by
    intro x y d hd
    match d, hd with
    | 0, _ => exact ⟨x, [], rfl⟩
    | 1, _ => exact ⟨y, [], rfl⟩
  have h := Reshape.directions_independent termApi exampleNode [[tangent1], [tangent2]]
    [[stale], [stale]] [[seed1], [seed2]] [[sens0], [sens0]]
    (two tangent1 tangent2) (two stale stale) (two seed1 seed2) (two sens0 sens0)
  exact ⟨two tangent1 tangent2, two stale stale, two seed1 seed2, two sens0 sens0,
    by decide, by decide, h.2.2.2.2.2.2.2⟩

/-- C13 as stated fails: the constructor accepts a 2x2 input with values on the diagonal and
the 4x1 target with values in rows 0 and 1 (two values each), yet the value `joinPrimitives`
returns does not have that target as its descriptor.  Indeed, for every implementation of the
collaborators, this node and the node with the 4x1 target with values in rows 0 and 3, which
the constructor accepts as well, return the same value although their descriptors differ. -/
theorem Reshape.joinPrimitives_descriptor_differs :
    (∃ node, Reshape.construct termApi diagSym topRows = .ok node ∧
      termApi.sparsity (node.joinPrimitives termApi (leafNode Term) diagCursor).1 ≠
        node.sparsity) ∧
    Reshape.construct termApi diagSym endRows = .ok { dep := diagSym, sparsity := endRows } ∧
    topRows ≠ endRows ∧
    (∀ (E : MXApi Term) (N : NodeApi Term Bool) (it : Cursor Term),
      Reshape.joinPrimitives E N { dep := diagSym, sparsity := topRows } it =
        Reshape.joinPrimitives E N { dep := diagSym, sparsity := endRows } it) :=
  ⟨⟨{ dep := diagSym, sparsity := topRows }, rfl, by decide⟩, rfl, by decide,
    fun _ _ _ => rfl⟩

/-- C13 amended: for the node the constructor returns for `x` and `sp`, `joinPrimitives`
returns the value the input node reassembles from the cursor, reshaped to the dimensions of
the node's output descriptor, and leaves the cursor where the input node left it; when
`reshape` yields a value of the dimensions asked for (`hshape`), the returned value has the
dimensions of `sp`. -/
theorem Reshape.joinPrimitives_shape {MX σ : Type} (E : MXApi MX) (N : NodeApi MX σ)
    (x : MX) (sp : Sparsity) (node : Reshape MX) (it : Cursor MX)
    (hnode : Reshape.construct E x sp = .ok node)
    (hshape : ∀ v rc, E.shape (E.reshapeShape v rc) = rc) :
    node.joinPrimitives E N it =
      (E.reshapeShape (N.joinPrimitives x it).1 sp.shape, (N.joinPrimitives x it).2) ∧
    E.shape (node.joinPrimitives E N it).1 = sp.shape := by
  obtain ⟨hdep, hsp⟩ := Reshape.construct_dep_sparsity E x sp node hnode
  have hval : node.joinPrimitives E N it =
      (E.reshapeShape (N.joinPrimitives x it).1 sp.shape, (N.joinPrimitives x it).2) := by
    simp [Reshape.joinPrimitives, Reshape.shape, hdep, hsp]
  refine ⟨hval, ?_⟩
  rw [hval]
  exact hshape _ _

/-- C13 amended, at a concrete input: the node with the diagonal 2x2 input and the 4x1 target
returns a value of dimensions 4x1. -/
theorem Reshape.joinPrimitives_shape_witness :
    Reshape.construct termApi diagSym topRows = .ok { dep := diagSym, sparsity := topRows } ∧
    (∀ v rc, termApi.shape (termApi.reshapeShape v rc) = rc) ∧
    termApi.shape (Reshape.joinPrimitives termApi (leafNode Term)
      { dep := diagSym, sparsity := topRows } diagCursor).1 = (4, 1) :=
  ⟨rfl, fun _ _ => rfl,
    (Reshape.joinPrimitives_shape termApi (leafNode Term) diagSym topRows
      { dep := diagSym, sparsity := topRows } diagCursor rfl (fun _ _ => rfl)).2⟩

end casadi
